import Mathlib

/-!
Shallow embedding of the Telegram AI bot (`src/main.py`).

The program is a single-file Telegram bot: per-user sessions (history,
facts, pending thought) are cached in memory, persisted in a one-table
SQLite database as JSON-encoded text columns, and each incoming text
message is handled by the `chat` coroutine, which may short-circuit with
an "unfinished equation" heuristic or call the Gemini completion
endpoint via `fetch_ai_response`.

Modelling choices:
* a session is the value of `USER_MEMORY[user_id]`;
* the outbound effects of one `chat` invocation (the single reply and
  the `save_memory` calls) are returned explicitly as an `Action` plus a
  list of persisted snapshots;
* the AI reply text is an oracle argument (`ai_reply`), since the
  network response is external input;
* `user_message` stands for the already-stripped text
  (`update.message.text.strip()`).
-/

namespace Bot

/-- Per-user conversational state, the value of `USER_MEMORY[user_id]` in
`src/main.py`: history list, facts dict (modelled as an association list in
insertion order, keys unique), and the optional pending thought. -/
structure Session where
  history : List String
  facts : List (String × String)
  pending_thought : Option String
deriving DecidableEq, Repr

/-- Python truthiness of the `pending_thought` field (`None` and the empty
string are falsy). -/
def pendingTruthy : Option String → Bool
  | none => false
  | some s => s ≠ ""

/-- Python `l[-n:]`: the last `n` elements of the list (the whole list when
it is shorter than `n`). -/
def lastN (n : Nat) (l : List α) : List α := l.drop (l.length - n)

/-- Test of `re.search(r"[\+\-\*/]", msg)` in `chat`: the message contains at
least one arithmetic operator character. -/
def hasOperator (msg : String) : Bool :=
  msg.data.any (fun c => c == '+' || c == '-' || c == '*' || c == '/')

/-- Test of `re.search(r"[a-zA-Z]+", msg)` in `chat`: the message contains at
least one ASCII letter (a nonempty alphabetic run exists iff one letter
exists). -/
def hasAlpha (msg : String) : Bool :=
  msg.data.any (fun c => ('a' ≤ c && c ≤ 'z') || ('A' ≤ c && c ≤ 'Z'))

/-- The unfinished-equation heuristic of `chat` (line 109 of `src/main.py`):
both regex searches succeed on the raw `user_message`. -/
def heuristicFires (msg : String) : Bool :=
  hasOperator msg && hasAlpha msg

/-- Fixed follow-up prompt sent when the heuristic fires (line 112). -/
def heuristicPrompt : String := "Oh! What are the missing values? Let me know! 😃"

/-- One role-tagged turn of the completion payload: an element of the
`contents` list built in `fetch_ai_response`. Each turn has exactly one
part, `\x7b "text": msg \x7d`, modelled as a singleton `parts` list. -/
structure Turn where
  role : String
  parts : List String
deriving DecidableEq, Repr

/-- Dialogue construction of `fetch_ai_response` (lines 62–67 of
`src/main.py`): the last 50 context entries, tagged "user" at even and
"model" at odd positions of the slice, followed by one final user turn
`"<user_name>: <user_prompt>"`. This is the pure Context Builder. -/
def buildDialogue (user_name user_prompt : String) (context_data : List String) : List Turn :=
  (lastN 50 context_data).enum.map
    (fun p => { role := if p.1 % 2 = 0 then "user" else "model", parts := [p.2] }) ++
  [{ role := "user", parts := [user_name ++ ": " ++ user_prompt] }]

/-- The outward action a single `chat` invocation ends with: either the fixed
heuristic reply (no completion call), or one completion call
(`fetch_ai_response user_name user_prompt context_data`) whose reply is then
sent. -/
inductive Action where
  | heuristic (text : String)
  | complete (user_name user_prompt : String) (context_data : List String)
deriving DecidableEq, Repr

/-- Whether the action is a completion call. -/
def Action.isComplete : Action → Bool
  | .complete _ _ _ => true
  | .heuristic _ => false

/-- Pending-thought handling of `chat` (lines 98–104): if a pending thought
is truthy it is merged with the new message into one history entry with a
single space, the pending thought is cleared and the session saved;
otherwise the message is appended alone. Returns the updated session and
the `save_memory` snapshots taken in this block. -/
def mergeStep (s : Session) (user_message : String) : Session × List Session :=
  if pendingTruthy s.pending_thought then
    let s1 : Session :=
      { s with history := s.history ++ [(s.pending_thought.getD "") ++ " " ++ user_message],
               pending_thought := none }
    (s1, [s1])
  else
    ({ s with history := s.history ++ [user_message] }, [])

/-- One invocation of the `chat` handler (lines 93–119 of `src/main.py`) on
an existing session: pending-thought merge, truncation of history to the
last 50 entries, then either the heuristic branch (store the raw message as
pending thought, save, fixed reply, return) or the completion branch (call
`fetch_ai_response` on the truncated history, append `"Bot: <reply>"`
without re-truncating, save, send the reply). Returns the final session,
the outward action, and the list of `save_memory` snapshots in order. -/
def chat (user_name ai_reply : String) (s : Session) (user_message : String) :
    Session × Action × List Session :=
  let m := mergeStep s user_message
  let s2 : Session := { m.1 with history := lastN 50 m.1.history }
  if heuristicFires user_message then
    let s3 : Session := { s2 with pending_thought := some user_message }
    (s3, Action.heuristic heuristicPrompt, m.2 ++ [s3])
  else
    let s3 : Session := { s2 with history := s2.history ++ ["Bot: " ++ ai_reply] }
    (s3, Action.complete user_name user_message s2.history, m.2 ++ [s3])

/-- Session creation of `chat` (lines 93–94): a previously unseen user gets
a fresh session with empty history, empty facts and no pending thought. -/
def freshSession : Session := { history := [], facts := [], pending_thought := none }

/-- Lookup-or-create against the in-memory cache (lines 93–96), the cache
being an association list keyed by user id. -/
def getOrCreate (mem : List (Nat × Session)) (uid : Nat) : Session :=
  (mem.lookup uid).getD freshSession

example : heuristicFires "2 + x" = true := by decide
example : heuristicFires "hello there" = false := by decide
example : heuristicFires "Hi" = false := by decide

/-! ### Completion client response handling (`fetch_ai_response`, lines 69–80)

The HTTP layer is modelled by an `HttpOutcome`: either the `aiohttp` call
raised (timeout, connection error — there is no `try`/`except` around the
POST in the source, so such an exception propagates out of
`fetch_ai_response`), or a response with a status code and an
already-JSON-decoded body arrived. -/

/-- JSON-like Python value, as produced by `response.json()`. -/
inductive JVal where
  | null
  | bool (b : Bool)
  | num (n : Int)
  | str (s : String)
  | arr (elems : List JVal)
  | obj (entries : List (String × JVal))
deriving Repr

/-- Python exceptions relevant to `fetch_ai_response`: `KeyError` and
`IndexError` are caught by the `except` clause; `TypeError` (subscripting a
non-subscriptable value) is not; `transportError` stands for the
`aiohttp`/timeout exceptions raised by the POST itself. -/
inductive PyExc where
  | keyError
  | indexError
  | typeError
  | transportError
deriving DecidableEq, Repr

/-- Subscript key: `d["k"]` or `d[0]`. -/
inductive Key where
  | str (k : String)
  | idx (n : Nat)

/-- Python subscripting `v[k]` on JSON-decoded values: dict lookup raises
`KeyError` on a missing (or integer) key, list indexing raises `IndexError`
out of range and `TypeError` on a string key, string indexing yields a
one-character string, and every other combination raises `TypeError`. -/
def pySubscript : JVal → Key → Except PyExc JVal
  | .obj kvs, .str k =>
    match kvs.lookup k with
    | some v => .ok v
    | none => .error .keyError
  | .obj _, .idx _ => .error .keyError
  | .arr xs, .idx n =>
    match xs.get? n with
    | some v => .ok v
    | none => .error .indexError
  | .arr _, .str _ => .error .typeError
  | .str s, .idx n =>
    match s.data.get? n with
    | some c => .ok (.str (String.mk [c]))
    | none => .error .indexError
  | .str _, .str _ => .error .typeError
  | _, _ => .error .typeError

/-- The extraction `response_data["candidates"][0]["content"]["parts"][0]["text"]`
from line 74 of `src/main.py`. -/
def extractText (response_data : JVal) : Except PyExc JVal := do
  let a ← pySubscript response_data (.str "candidates")
  let b ← pySubscript a (.idx 0)
  let c ← pySubscript b (.str "content")
  let d ← pySubscript c (.str "parts")
  let e ← pySubscript d (.idx 0)
  pySubscript e (.str "text")

/-- Outcome of the HTTP POST inside `fetch_ai_response`. -/
inductive HttpOutcome where
  | exc
  | resp (status : Nat) (body : JVal)

/-- Fallback reply for a non-200 status (line 80). -/
def uhOhMsg : String := "Uh-oh, I messed up. Try again!"

/-- Fallback reply for a 200 response of unexpected shape (line 77); the
apostrophe in the source is the typographic U+2019. -/
def huhMsg : String := "Huh? That didn’t make sense."

/-- Response handling of `fetch_ai_response` (lines 69–80): on a 200 status
the text is extracted, with `KeyError`/`IndexError` caught and turned into
the fixed fallback (logging the raw payload, returned as the second
component); any other exception — including a transport error or timeout of
the POST itself, which no `try`/`except` covers — propagates as
`Except.error`. A non-200 status yields the other fixed fallback. -/
def handleResponse : HttpOutcome → Except PyExc (JVal × Option JVal)
  | .exc => .error .transportError
  | .resp status body =>
    if status = 200 then
      match extractText body with
      | .ok v => .ok (v, none)
      | .error .keyError => .ok (.str huhMsg, some body)
      | .error .indexError => .ok (.str huhMsg, some body)
      | .error e => .error e
    else
      .ok (.str uhOhMsg, none)

/-! ### Persistence layer (`save_memory` / `load_memory`, lines 39–58)

`save_memory` serializes `history` with `json.dumps` (a JSON array of
strings) and `facts` with `json.dumps` (a JSON object with string values),
stores `pending_thought` as nullable text, and upserts the row with
`REPLACE INTO`. `load_memory` rebuilds the cache by `json.loads` on each
row. The `json` library is modelled here by an encoder faithful to
`json.dumps` with its default options (`ensure_ascii=True`, separators
`", "` and `": "`) and a decoder faithful to `json.loads` restricted to
the two shapes the table holds: arrays of strings and string-valued
objects. -/

/-- Lowercase hex digit, as `json.dumps` emits in `\uXXXX` escapes. -/
def hexDigitChar (n : Nat) : Char :=
  if n < 10 then Char.ofNat (48 + n) else Char.ofNat (87 + n)

/-- Four-digit hex rendering of `n < 0x10000`. -/
def hex4 (n : Nat) : List Char :=
  [hexDigitChar (n / 4096 % 16), hexDigitChar (n / 256 % 16),
   hexDigitChar (n / 16 % 16), hexDigitChar (n % 16)]

/-- Escape of one character inside a JSON string literal, after
`json.dumps` with `ensure_ascii=True`: `"` and `\` are backslash-escaped,
the five classic control characters get short escapes, all other characters
outside `0x20`–`0x7e` become `\uXXXX` (a surrogate pair beyond the basic
plane), and printable ASCII is emitted literally. -/
def escChar (c : Char) : List Char :=
  if c = '"' then ['\\', '"']
  else if c = '\\' then ['\\', '\\']
  else if c = '\x08' then ['\\', 'b']
  else if c = '\t' then ['\\', 't']
  else if c = '\n' then ['\\', 'n']
  else if c = '\x0c' then ['\\', 'f']
  else if c = '\r' then ['\\', 'r']
  else if c.toNat < 0x20 then '\\' :: 'u' :: hex4 c.toNat
  else if c.toNat < 0x7f then [c]
  else if c.toNat < 0x10000 then '\\' :: 'u' :: hex4 c.toNat
  else
    ('\\' :: 'u' :: hex4 (0xD800 + (c.toNat - 0x10000) / 0x400)) ++
    ('\\' :: 'u' :: hex4 (0xDC00 + (c.toNat - 0x10000) % 0x400))

/-- Escaped body of a JSON string literal. -/
def encChars : List Char → List Char
  | [] => []
  | c :: cs => escChar c ++ encChars cs

/-- Encoding of one string as a JSON string literal, quotes included. -/
def encString (s : String) : List Char :=
  '"' :: (encChars s.data ++ ['"'])

/-- Comma-space separated concatenation (the default `json.dumps` item
separator is `", "`). -/
def encCommaSep : List (List Char) → List Char
  | [] => []
  | [x] => x
  | x :: xs => x ++ ',' :: ' ' :: encCommaSep xs

/-- Model of `json.dumps` on a list of strings (line 53). -/
def json_dumps_strlist (l : List String) : String :=
  String.mk ('[' :: (encCommaSep (l.map encString) ++ [']']))

/-- Model of `json.dumps` on a string-valued dict (line 54); entries in
insertion order, key separator `": "`. -/
def json_dumps_strmap (m : List (String × String)) : String :=
  String.mk ('\x7b' :: (encCommaSep
    (m.map (fun kv => encString kv.1 ++ ':' :: ' ' :: encString kv.2)) ++ ['\x7d']))

/-- Numeric value of one hex digit (`json.loads` accepts both cases). -/
def hexVal? (c : Char) : Option Nat :=
  if '0' ≤ c && c ≤ '9' then some (c.toNat - 48)
  else if 'a' ≤ c && c ≤ 'f' then some (c.toNat - 87)
  else if 'A' ≤ c && c ≤ 'F' then some (c.toNat - 55)
  else none

/-- Four hex digits, most significant first. -/
def parse4Hex : List Char → Option (Nat × List Char)
  | a :: b :: c :: d :: rest => do
    let x ← hexVal? a
    let y ← hexVal? b
    let z ← hexVal? c
    let w ← hexVal? d
    some (((x * 16 + y) * 16 + z) * 16 + w, rest)
  | _ => none

/-- Single-character short escapes after a backslash (`\u` is handled
separately by the string-body parser). -/
def unescape? : Char → Option Char
  | '"' => some '"'
  | '\\' => some '\\'
  | '/' => some '/'
  | 'b' => some '\x08'
  | 'f' => some '\x0c'
  | 'n' => some '\n'
  | 'r' => some '\r'
  | 't' => some '\t'
  | _ => none

/-- Body of a JSON string literal (after the opening quote), fuelled: reads
characters and escapes up to the closing quote, recombining `\uXXXX`
surrogate pairs, rejecting raw control characters (strict mode) and lone
surrogates. Returns the decoded characters and the input after the closing
quote. -/
def parseStrBody : Nat → List Char → Option (List Char × List Char)
  | 0, _ => none
  | _ + 1, [] => none
  | fuel + 1, c :: rest =>
    if c = '"' then some ([], rest)
    else if c = '\\' then
      match rest with
      | [] => none
      | e :: more =>
        if e = 'u' then
          match parse4Hex more with
          | none => none
          | some (n, rest1) =>
            if 0xD800 ≤ n ∧ n < 0xDC00 then
              match rest1 with
              | '\\' :: 'u' :: more2 =>
                match parse4Hex more2 with
                | none => none
                | some (m, rest2) =>
                  if 0xDC00 ≤ m ∧ m < 0xE000 then
                    match parseStrBody fuel rest2 with
                    | some (body, fin) =>
                      some (Char.ofNat (0x10000 + (n - 0xD800) * 0x400 + (m - 0xDC00)) :: body,
                        fin)
                    | none => none
                  else none
              | _ => none
            else if 0xDC00 ≤ n ∧ n < 0xE000 then none
            else
              match parseStrBody fuel rest1 with
              | some (body, fin) => some (Char.ofNat n :: body, fin)
              | none => none
        else
          match unescape? e with
          | none => none
          | some d =>
            match parseStrBody fuel more with
            | some (body, fin) => some (d :: body, fin)
            | none => none
    else if c.toNat < 0x20 then none
    else
      match parseStrBody fuel rest with
      | some (body, fin) => some (c :: body, fin)
      | none => none

/-- One JSON string literal, opening quote included. -/
def parseJString (cs : List Char) : Option (String × List Char) :=
  match cs with
  | '"' :: body =>
    match parseStrBody (body.length + 1) body with
    | some (chars, rest) => some (String.mk chars, rest)
    | none => none
  | _ => none

/-- JSON whitespace skipping, as `json.loads` allows between tokens. -/
def skipWs : List Char → List Char
  | [] => []
  | c :: rest => if c = ' ' || c = '\t' || c = '\n' || c = '\r' then skipWs rest else c :: rest

/-- Elements of a nonempty JSON array of strings, up to and including the
closing bracket; fuelled by the number of remaining elements. -/
def parseElems : Nat → List Char → Option (List String × List Char)
  | 0, _ => none
  | fuel + 1, cs =>
    match parseJString cs with
    | none => none
    | some (s, rest) =>
      match skipWs rest with
      | ',' :: rest2 =>
        match parseElems fuel (skipWs rest2) with
        | some (ss, fin) => some (s :: ss, fin)
        | none => none
      | ']' :: rest2 => some ([s], rest2)
      | _ => none

/-- A JSON array of strings. -/
def parseStrList (fuel : Nat) (cs : List Char) : Option (List String × List Char) :=
  match skipWs cs with
  | '[' :: rest =>
    match skipWs rest with
    | ']' :: rest2 => some ([], rest2)
    | cs2 => parseElems fuel cs2
  | _ => none

/-- Entries of a nonempty JSON object with string values, up to and
including the closing brace; fuelled by the number of remaining entries. -/
def parseEntries : Nat → List Char → Option (List (String × String) × List Char)
  | 0, _ => none
  | fuel + 1, cs =>
    match parseJString cs with
    | none => none
    | some (k, rest) =>
      match skipWs rest with
      | ':' :: rest2 =>
        match parseJString (skipWs rest2) with
        | none => none
        | some (v, rest3) =>
          match skipWs rest3 with
          | ',' :: rest4 =>
            match parseEntries fuel (skipWs rest4) with
            | some (kvs, fin) => some ((k, v) :: kvs, fin)
            | none => none
          | '\x7d' :: rest4 => some ([(k, v)], rest4)
          | _ => none
      | _ => none

/-- A JSON object with string values. -/
def parseStrMap (fuel : Nat) (cs : List Char) : Option (List (String × String) × List Char)  :=
  match skipWs cs with
  | '\x7b' :: rest =>
    match skipWs rest with
    | '\x7d' :: rest2 => some ([], rest2)
    | cs2 => parseEntries fuel cs2
  | _ => none

/-- Model of `json.loads` on a JSON array of strings (line 45): the whole
input must be consumed up to trailing whitespace, else the call raises. -/
def json_loads_strlist (s : String) : Option (List String) :=
  match parseStrList s.data.length s.data with
  | some (l, rest) => if skipWs rest = [] then some l else none
  | none => none

/-- Model of `json.loads` on a JSON object with string values (line 46). -/
def json_loads_strmap (s : String) : Option (List (String × String)) :=
  match parseStrMap s.data.length s.data with
  | some (m, rest) => if skipWs rest = [] then some m else none
  | none => none

/-- One row of the `memory` table: `history` and `facts` are TEXT columns
written by `save_memory` (always non-null), `pending_thought` is nullable
TEXT. -/
structure Row where
  history : String
  facts : String
  pending_thought : Option String
deriving DecidableEq, Repr

/-- Serialization half of `save_memory` (lines 53–55): the row written for
a session. -/
def save_memory_row (s : Session) : Row :=
  { history := json_dumps_strlist s.history,
    facts := json_dumps_strmap s.facts,
    pending_thought := s.pending_thought }

/-- Per-row half of `load_memory` (lines 44–48): `json.loads(history)`,
`json.loads(facts) if facts else {}` (Python truthiness: the empty string
yields the empty dict), `pending_thought` taken as stored; `none` models a
raised decode error. -/
def load_memory_row (r : Row) : Option Session :=
  match json_loads_strlist r.history with
  | none => none
  | some h =>
    match (if r.facts ≠ "" then json_loads_strmap r.facts else some []) with
    | none => none
    | some f => some { history := h, facts := f, pending_thought := r.pending_thought }

/-- SQLite `REPLACE INTO` keyed by `user_id` (lines 56–57): the conflicting
row is deleted and the new row inserted. -/
def dbReplace (uid : Nat) (r : Row) (db : List (Nat × Row)) : List (Nat × Row) :=
  db.filter (fun p => p.1 != uid) ++ [(uid, r)]

/-- The full `save_memory(user_id)` (lines 51–58) acting on the table. -/
def save_memory (uid : Nat) (s : Session) (db : List (Nat × Row)) : List (Nat × Row) :=
  dbReplace uid (save_memory_row s) db

/-- The full `load_memory()` (lines 39–48): iterates over every row of the
table and rebuilds the cache; `none` models a raised decode error on any
row. -/
def load_memory : List (Nat × Row) → Option (List (Nat × Session))
  | [] => some []
  | p :: rest =>
    match load_memory_row p.2, load_memory rest with
    | some s, some m => some ((p.1, s) :: m)
    | _, _ => none

/-! ### Helper lemmas -/

theorem lastN_eq_self {α : Type} {n : Nat} {l : List α} (h : l.length ≤ n) :
    lastN n l = l := by
  simp [lastN, Nat.sub_eq_zero_of_le h]

theorem lastN_suffix {α : Type} (n : Nat) (l : List α) : lastN n l <:+ l :=
  ⟨l.take (l.length - n), List.take_append_drop _ _⟩

theorem length_lastN {α : Type} (n : Nat) (l : List α) :
    (lastN n l).length = l.length - (l.length - n) := by
  simp [lastN]

theorem heuristicFires_empty : heuristicFires "" = false := by decide

/-! ### Claim theorems -/

/-- C1 counterexample: a session whose history already has 50 entries,
receiving a plain message, ends the handler with 51 history entries,
because the bot reply is appended after the truncation with no
re-truncation. -/
theorem C1_counterexample :
    (chat "N" "r" ⟨List.replicate 50 "x", [], none⟩ "hello").1.history.length = 51 := by
  decide

/-- C1 (amended): after every handler invocation the history has at most 51
entries; the truncation to the last 50 (dropping oldest first — the kept
part is a suffix of the appended history) happens after the merge/append
and before the completion call, and on the heuristic path the final length
is at most 50, but on the completion path the bot reply is appended without
re-truncating, so the final length can reach 51. -/
theorem C1_amended (user_name ai_reply msg : String) (s : Session) :
    let e := if pendingTruthy s.pending_thought
             then (s.pending_thought.getD "") ++ " " ++ msg else msg
    let pre := lastN 50 (s.history ++ [e])
    let r := chat user_name ai_reply s msg
    pre.length ≤ 50 ∧ pre <:+ (s.history ++ [e]) ∧
    r.1.history = (if heuristicFires msg then pre else pre ++ ["Bot: " ++ ai_reply]) ∧
    r.1.history.length ≤ 51 := by
  refine ⟨?_, lastN_suffix _ _, ?_, ?_⟩
  · rw [length_lastN]; omega
  · by_cases hF : heuristicFires msg <;> by_cases hP : pendingTruthy s.pending_thought <;>
      simp [chat, mergeStep, hF, hP]
  · by_cases hF : heuristicFires msg <;> by_cases hP : pendingTruthy s.pending_thought <;>
      simp [chat, mergeStep, hF, hP, length_lastN] <;> omega

/-- C2 counterexample: with pending thought "a+b" and next message "ok",
the merged entry "a+b ok" passes the heuristic test, yet the handler makes
a completion call — and its final prompt is the raw "ok", not the merged
entry: the heuristic and the final prompt use the raw message. -/
theorem C2_counterexample :
    heuristicFires ("a+b" ++ " " ++ "ok") = true ∧
    (chat "N" "r" ⟨[], [], some "a+b"⟩ "ok").2.1 = Action.complete "N" "ok" ["a+b ok"] := by
  constructor <;> decide

/-- C2 (amended): the heuristic tests the raw incoming message, not the
merged entry; when it fires, the raw message is stored verbatim as the
pending thought, and when it does not fire, the raw message (not the merged
entry) feeds the Context Builder as the final prompt, while the merged
entry reaches the completion call only through the truncated history. -/
theorem C2_amended (user_name ai_reply msg : String) (s : Session) :
    let r := chat user_name ai_reply s msg
    r.1.pending_thought = (if heuristicFires msg then some msg
         else if pendingTruthy s.pending_thought then none else s.pending_thought) ∧
    r.2.1 = (if heuristicFires msg then Action.heuristic heuristicPrompt
             else Action.complete user_name msg (lastN 50 (mergeStep s msg).1.history)) := by
  by_cases hF : heuristicFires msg <;> by_cases hP : pendingTruthy s.pending_thought <;>
    simp [chat, mergeStep, hF, hP]

/-- C3 counterexample: for a fresh user sending "Hi", the single completion
call's payload contains two user-role turns (the history echo of "Hi" and
the final name-prefixed prompt), not exactly one. -/
theorem C3_counterexample :
    ((buildDialogue "Alice" "Hi" ["Hi"]).filter (fun t => t.role == "user")).length = 2 ∧
    (chat "Alice" "ok" freshSession "Hi").2.1 = Action.complete "Alice" "Hi" ["Hi"] := by
  constructor <;> decide

/-- C3 (amended): a previously unseen user gets a fresh empty session;
their message "Hi" puts history at ["Hi"], triggers exactly one completion
call whose payload contains two user-role turns (the history echo of "Hi"
and the final "<displayName>: Hi" turn), the reply R is appended as
"Bot: R", history then has length 2, and the session is persisted exactly
once with that exact history. -/
theorem C3_amended (mem : List (Nat × Session)) (uid : Nat) (name reply : String)
    (hnew : mem.lookup uid = none) :
    getOrCreate mem uid = freshSession ∧
    (chat name reply freshSession "Hi").2.1 = Action.complete name "Hi" ["Hi"] ∧
    buildDialogue name "Hi" ["Hi"] =
      [{ role := "user", parts := ["Hi"] }, { role := "user", parts := [name ++ ": " ++ "Hi"] }] ∧
    (chat name reply freshSession "Hi").1.history = ["Hi", "Bot: " ++ reply] ∧
    (chat name reply freshSession "Hi").1.history.length = 2 ∧
    (chat name reply freshSession "Hi").2.2 = [(chat name reply freshSession "Hi").1] := by
  refine ⟨by simp [getOrCreate, hnew], ?_, ?_, ?_, ?_, ?_⟩ <;>
    simp [chat, mergeStep, freshSession, pendingTruthy, buildDialogue, lastN,
          show heuristicFires "Hi" = false from by decide]

/-- Witness for C3 at the empty cache, user id 0, display name "Alice" and
oracle reply "ok". -/
theorem C3_witness :
    getOrCreate [] 0 = freshSession ∧
    (chat "Alice" "ok" freshSession "Hi").2.1 = Action.complete "Alice" "Hi" ["Hi"] ∧
    buildDialogue "Alice" "Hi" ["Hi"] =
      [{ role := "user", parts := ["Hi"] },
       { role := "user", parts := ["Alice" ++ ": " ++ "Hi"] }] ∧
    (chat "Alice" "ok" freshSession "Hi").1.history = ["Hi", "Bot: " ++ "ok"] ∧
    (chat "Alice" "ok" freshSession "Hi").1.history.length = 2 ∧
    (chat "Alice" "ok" freshSession "Hi").2.2 = [(chat "Alice" "ok" freshSession "Hi").1] :=
  C3_amended [] 0 "Alice" "ok" rfl

/-- C4 (confirmed): when a session holds a non-empty pending thought P and
message M arrives, the merge block appends exactly one combined entry
"P M" (single space) to history, clears the pending thought immediately,
and saves that state. -/
theorem C4 (M P : String) (s : Session) (hp : s.pending_thought = some P) (hP : P ≠ "") :
    mergeStep s M =
      ({ history := s.history ++ [P ++ " " ++ M], facts := s.facts, pending_thought := none },
       [{ history := s.history ++ [P ++ " " ++ M], facts := s.facts, pending_thought := none }]) := by
  simp [mergeStep, pendingTruthy, hp, hP]

/-- Witness for C4 at a concrete session. -/
theorem C4_witness :
    mergeStep ⟨["old"], [("k","v")], some "2 +"⟩ "5" =
      ({ history := ["old", "2 + 5"], facts := [("k","v")], pending_thought := none },
       [{ history := ["old", "2 + 5"], facts := [("k","v")], pending_thought := none }]) :=
  C4 "5" "2 +" ⟨["old"], [("k","v")], some "2 +"⟩ rfl (by decide)

/-- C5 counterexample: a transport error or timeout of the POST propagates
as an exception out of `fetch_ai_response` (nothing catches it), instead of
yielding the fixed fallback string; moreover the actual bad-shape fallback
string differs from the claimed ASCII-apostrophe one (the source uses the
typographic apostrophe U+2019). -/
theorem C5_counterexample :
    handleResponse HttpOutcome.exc = Except.error PyExc.transportError ∧
    (huhMsg == "Huh? That didn\x27t make sense.") = false := by
  exact ⟨rfl, by decide⟩

/-- C5 (amended): a non-200 status yields exactly the fixed string
"Uh-oh, I messed up. Try again!"; a transport error or timeout is NOT
caught and propagates as an exception; a 200 response whose body lacks the
shape candidates[0].content.parts[0].text (raising KeyError or IndexError)
yields exactly the fixed string "Huh? That didn’t make sense." (typographic
apostrophe) and the raw payload is logged. -/
theorem C5_amended (status : Nat) (body : JVal)
    (hs : status ≠ 200)
    (hb : extractText body = .error .keyError ∨ extractText body = .error .indexError) :
    handleResponse (.resp status body) = .ok (.str uhOhMsg, none) ∧
    handleResponse .exc = .error .transportError ∧
    handleResponse (.resp 200 body) = .ok (.str huhMsg, some body) ∧
    uhOhMsg = "Uh-oh, I messed up. Try again!" ∧
    huhMsg = "Huh? That didn’t make sense." := by
  refine ⟨by simp [handleResponse, hs], rfl, ?_, rfl, rfl⟩
  rcases hb with h | h <;> simp [handleResponse, h]

/-- Witness for C5 at a 404 response and an empty-object 200 body. -/
theorem C5_witness :
    handleResponse (.resp 404 (JVal.obj [])) = .ok (.str uhOhMsg, none) ∧
    handleResponse .exc = .error .transportError ∧
    handleResponse (.resp 200 (JVal.obj [])) = .ok (.str huhMsg, some (JVal.obj [])) ∧
    uhOhMsg = "Uh-oh, I messed up. Try again!" ∧
    huhMsg = "Huh? That didn’t make sense." :=
  C5_amended 404 (JVal.obj []) (by decide) (Or.inl rfl)

/-- C6 (confirmed): the Context Builder is a pure function of history,
message and display name: it takes at most the last 50 history entries in
order (a suffix of the history), tags position i of that slice "user" when
i is even and "model" when i is odd, produces one single-part text turn per
entry, and appends one final user-role turn "<displayName>: <message>". -/
theorem C6 (user_name user_prompt : String) (context_data : List String) (i : Nat) (m : String)
    (hi : (lastN 50 context_data)[i]? = some m) :
    (buildDialogue user_name user_prompt context_data).length =
      (lastN 50 context_data).length + 1 ∧
    (lastN 50 context_data).length ≤ 50 ∧
    lastN 50 context_data <:+ context_data ∧
    (buildDialogue user_name user_prompt context_data)[i]? =
      some { role := if i % 2 = 0 then "user" else "model", parts := [m] } ∧
    (buildDialogue user_name user_prompt context_data).getLast? =
      some { role := "user", parts := [user_name ++ ": " ++ user_prompt] } ∧
    (∀ t ∈ buildDialogue user_name user_prompt context_data, t.parts.length = 1) := by
  have hlen : i < (lastN 50 context_data).length := by
    by_contra h
    rw [List.getElem?_eq_none (Nat.le_of_not_lt h)] at hi
    exact Option.noConfusion hi
  refine ⟨?_, ?_, lastN_suffix _ _, ?_, ?_, ?_⟩
  · simp [buildDialogue]
  · rw [length_lastN]; omega
  · rw [buildDialogue, List.getElem?_append_left (by simpa using hlen),
      List.getElem?_map, List.getElem?_enum, hi]
    rfl
  · rw [buildDialogue, List.getLast?_concat]
  · intro t ht
    rw [buildDialogue] at ht
    rcases List.mem_append.1 ht with h | h
    · rcases List.mem_map.1 h with ⟨p, _, rfl⟩
      rfl
    · rcases List.mem_singleton.1 h with rfl
      rfl

/-- Witness for C6 at a concrete three-entry history and position 1. -/
theorem C6_witness :
    (buildDialogue "Alice" "and you?" ["hi", "Bot: hello", "fine"]).length =
      (lastN 50 ["hi", "Bot: hello", "fine"]).length + 1 ∧
    (lastN 50 ["hi", "Bot: hello", "fine"]).length ≤ 50 ∧
    lastN 50 ["hi", "Bot: hello", "fine"] <:+ ["hi", "Bot: hello", "fine"] ∧
    (buildDialogue "Alice" "and you?" ["hi", "Bot: hello", "fine"])[1]? =
      some { role := if 1 % 2 = 0 then "user" else "model", parts := ["Bot: hello"] } ∧
    (buildDialogue "Alice" "and you?" ["hi", "Bot: hello", "fine"]).getLast? =
      some { role := "user", parts := ["Alice" ++ ": " ++ "and you?"] } ∧
    (∀ t ∈ buildDialogue "Alice" "and you?" ["hi", "Bot: hello", "fine"], t.parts.length = 1) :=
  C6 "Alice" "and you?" ["hi", "Bot: hello", "fine"] 1 "Bot: hello" rfl

/-- C8 (confirmed): for any session with no pending thought, "2 + x"
(operator and alphabetic run) stores the raw message as the pending
thought, replies exactly the fixed prompt and makes no completion call,
while "hello there" (no operator) leaves the pending thought unset and
proceeds to the completion call. -/
theorem C8 (name reply : String) (s : Session) (h : s.pending_thought = none) :
    (chat name reply s "2 + x").1.pending_thought = some "2 + x" ∧
    (chat name reply s "2 + x").2.1 =
      Action.heuristic "Oh! What are the missing values? Let me know! 😃" ∧
    (chat name reply s "2 + x").2.1.isComplete = false ∧
    (chat name reply s "hello there").1.pending_thought = none ∧
    (chat name reply s "hello there").2.1 =
      Action.complete name "hello there" (lastN 50 (s.history ++ ["hello there"])) := by
  refine ⟨?_, ?_, ?_, ?_, ?_⟩ <;>
    simp [chat, mergeStep, pendingTruthy, h, heuristicPrompt, Action.isComplete,
          show heuristicFires "2 + x" = true from by decide,
          show heuristicFires "hello there" = false from by decide]

/-- Witness for C8 at the fresh session. -/
theorem C8_witness :
    (chat "N" "r" freshSession "2 + x").1.pending_thought = some "2 + x" ∧
    (chat "N" "r" freshSession "2 + x").2.1 =
      Action.heuristic "Oh! What are the missing values? Let me know! 😃" ∧
    (chat "N" "r" freshSession "2 + x").2.1.isComplete = false ∧
    (chat "N" "r" freshSession "hello there").1.pending_thought = none ∧
    (chat "N" "r" freshSession "hello there").2.1 =
      Action.complete "N" "hello there" (lastN 50 ([] ++ ["hello there"])) :=
  C8 "N" "r" freshSession rfl

/-- C9 (confirmed): the facts mapping is a frame of every handler path —
the final session and every persisted snapshot carry the incoming facts
unchanged, and a newly created session has empty facts. -/
theorem C9 (user_name ai_reply msg : String) (s : Session) :
    (chat user_name ai_reply s msg).1.facts = s.facts ∧
    ((chat user_name ai_reply s msg).2.2.all fun t => t.facts == s.facts) = true ∧
    freshSession.facts = [] := by
  refine ⟨?_, ?_, rfl⟩ <;>
    by_cases hF : heuristicFires msg <;> by_cases hP : pendingTruthy s.pending_thought <;>
      simp [chat, mergeStep, hF, hP]

/-- C10 (confirmed implicit behavior): a message P (no pending thought
outstanding, history short enough that nothing is truncated) that triggers
the heuristic is appended to history AND stored as the pending thought; when
the next message M arrives, the merge appends "P M", so P occurs in the
final history both as its own entry and inside the combined entry — the
trigger message is duplicated in the context of later completion calls. -/
theorem C10 (name reply1 reply2 P M : String) (s : Session)
    (h0 : s.pending_thought = none) (hfire : heuristicFires P = true)
    (hlen : s.history.length ≤ 48) :
    (chat name reply1 s P).1.pending_thought = some P ∧
    (chat name reply2 (chat name reply1 s P).1 M).1.history =
      (s.history ++ [P, P ++ " " ++ M]) ++
        (if heuristicFires M then [] else ["Bot: " ++ reply2]) ∧
    P ∈ (chat name reply2 (chat name reply1 s P).1 M).1.history ∧
    (P ++ " " ++ M) ∈ (chat name reply2 (chat name reply1 s P).1 M).1.history := by
  have hP : P ≠ "" := by
    intro hh
    rw [hh, heuristicFires_empty] at hfire
    exact Bool.noConfusion hfire
  have step1 : (chat name reply1 s P).1 =
      { history := s.history ++ [P], facts := s.facts, pending_thought := some P } := by
    simp [chat, mergeStep, pendingTruthy, h0, hfire,
          lastN_eq_self (by simp; omega : (s.history ++ [P]).length ≤ 50)]
  rw [step1]
  have truthy : pendingTruthy (some P) = true := by simp [pendingTruthy, hP]
  have hfix : lastN 50 (s.history ++ [P, P ++ " " ++ M]) = s.history ++ [P, P ++ " " ++ M] :=
    lastN_eq_self (by simp; omega)
  have step2 : (chat name reply2
      ({ history := s.history ++ [P], facts := s.facts, pending_thought := some P } : Session)
      M).1.history =
      (s.history ++ [P, P ++ " " ++ M]) ++
        (if heuristicFires M then [] else ["Bot: " ++ reply2]) := by
    by_cases hM : heuristicFires M <;> simp [chat, mergeStep, truthy, hM, hfix]
  refine ⟨rfl, step2, ?_, ?_⟩ <;> rw [step2] <;> simp

/-- Witness for C10 at the fresh session, P = "2 + x", M = "5". -/
theorem C10_witness :
    (chat "N" "r1" freshSession "2 + x").1.pending_thought = some "2 + x" ∧
    (chat "N" "r2" (chat "N" "r1" freshSession "2 + x").1 "5").1.history =
      (([] : List String) ++ ["2 + x", "2 + x" ++ " " ++ "5"]) ++
        (if heuristicFires "5" then [] else ["Bot: " ++ "r2"]) ∧
    "2 + x" ∈ (chat "N" "r2" (chat "N" "r1" freshSession "2 + x").1 "5").1.history ∧
    ("2 + x" ++ " " ++ "5") ∈ (chat "N" "r2" (chat "N" "r1" freshSession "2 + x").1 "5").1.history :=
  C10 "N" "r1" "r2" "2 + x" "5" freshSession rfl (by decide) (by decide)

/-! ### JSON round-trip lemmas and the persistence claim -/

theorem charOfNat_toNat (c : Char) : Char.ofNat c.toNat = c := by
  rcases c with ⟨⟨bv⟩, valid⟩
  simp only [Char.ofNat, Char.toNat, UInt32.toNat, Char.ofNatAux]
  rw [dif_pos]
  · congr 1
  · exact valid

theorem char_toNat_valid (c : Char) :
    c.toNat < 0xd800 ∨ (0xdfff < c.toNat ∧ c.toNat < 0x110000) := by
  rcases c with ⟨v, hv⟩
  rcases hv with h | ⟨h1, h2⟩
  · exact Or.inl h
  · exact Or.inr ⟨h1, h2⟩

theorem hexVal?_hexDigitChar : ∀ d : Nat, d < 16 → hexVal? (hexDigitChar d) = some d := by
  decide

theorem parse4Hex_hex4 (n : Nat) (hn : n < 0x10000) (rest : List Char) :
    parse4Hex (hex4 n ++ rest) = some (n, rest) := by
  have h1 := hexVal?_hexDigitChar (n / 4096 % 16) (Nat.mod_lt _ (by omega))
  have h2 := hexVal?_hexDigitChar (n / 256 % 16) (Nat.mod_lt _ (by omega))
  have h3 := hexVal?_hexDigitChar (n / 16 % 16) (Nat.mod_lt _ (by omega))
  have h4 := hexVal?_hexDigitChar (n % 16) (Nat.mod_lt _ (by omega))
  simp [hex4, parse4Hex, h1, h2, h3, h4]
  omega

theorem parseStrBody_escChar (c : Char) (fuel : Nat) (tail : List Char) :
    parseStrBody (fuel + 1) (escChar c ++ tail) =
      match parseStrBody fuel tail with
      | some (body, fin) => some (c :: body, fin)
      | none => none := by
  by_cases h1 : c = '"'
  · subst h1; simp [escChar, parseStrBody, unescape?]
  by_cases h2 : c = '\\'
  · subst h2; simp [escChar, parseStrBody, unescape?]
  by_cases h3 : c = '\x08'
  · subst h3; simp [escChar, parseStrBody, unescape?]
  by_cases h4 : c = '\t'
  · subst h4; simp [escChar, parseStrBody, unescape?]
  by_cases h5 : c = '\n'
  · subst h5; simp [escChar, parseStrBody, unescape?]
  by_cases h6 : c = '\x0c'
  · subst h6; simp [escChar, parseStrBody, unescape?]
  by_cases h7 : c = '\r'
  · subst h7; simp [escChar, parseStrBody, unescape?]
  by_cases h8 : c.toNat < 0x20
  · -- control character: \u00XX escape
    have hform : escChar c = '\\' :: 'u' :: hex4 c.toNat := by
      simp [escChar, h1, h2, h3, h4, h5, h6, h7, h8]
    rw [hform]
    have := parse4Hex_hex4 c.toNat (by omega) tail
    have hs1 : ¬(0xD800 ≤ c.toNat ∧ c.toNat < 0xDC00) := by omega
    have hs2 : ¬(0xDC00 ≤ c.toNat ∧ c.toNat < 0xE000) := by omega
    simp [parseStrBody, this, charOfNat_toNat, hs1, hs2]
  by_cases h9 : c.toNat < 0x7f
  · -- printable ASCII: literal
    have hform : escChar c = [c] := by
      simp [escChar, h1, h2, h3, h4, h5, h6, h7, h8, h9]
    rw [hform]
    simp [parseStrBody, h1, h2, h8]
  by_cases h10 : c.toNat < 0x10000
  · -- basic-plane non-ASCII: \uXXXX escape, not a surrogate by validity
    have hval := char_toNat_valid c
    have hform : escChar c = '\\' :: 'u' :: hex4 c.toNat := by
      simp [escChar, h1, h2, h3, h4, h5, h6, h7, h8, h9, h10]
    rw [hform]
    have := parse4Hex_hex4 c.toNat (by omega) tail
    have hs1 : ¬(0xD800 ≤ c.toNat ∧ c.toNat < 0xDC00) := by omega
    have hs2 : ¬(0xDC00 ≤ c.toNat ∧ c.toNat < 0xE000) := by omega
    simp [parseStrBody, this, charOfNat_toNat, hs1, hs2]
  · -- astral plane: surrogate pair
    have hval := char_toNat_valid c
    obtain ⟨hi, hhi⟩ : ∃ x, x = 0xD800 + (c.toNat - 0x10000) / 0x400 := ⟨_, rfl⟩
    obtain ⟨lo, hlo⟩ : ∃ x, x = 0xDC00 + (c.toNat - 0x10000) % 0x400 := ⟨_, rfl⟩
    have hform : escChar c = ('\\' :: 'u' :: hex4 hi) ++ ('\\' :: 'u' :: hex4 lo) := by
      rw [hhi, hlo]
      simp [escChar, h1, h2, h3, h4, h5, h6, h7, h8, h9, h10]
    have hmod := Nat.div_add_mod (c.toNat - 0x10000) 0x400
    have hs1 : 0xD800 ≤ hi ∧ hi < 0xDC00 := by omega
    have hs2 : 0xDC00 ≤ lo ∧ lo < 0xE000 := by omega
    have hc : Char.ofNat (0x10000 + (hi - 0xD800) * 0x400 + (lo - 0xDC00)) = c := by
      have hcomb : 0x10000 + (hi - 0xD800) * 0x400 + (lo - 0xDC00) = c.toNat := by omega
      rw [hcomb, charOfNat_toNat]
    have p1 := parse4Hex_hex4 hi (by omega) (('\\' :: 'u' :: hex4 lo) ++ tail)
    simp only [List.cons_append, List.append_assoc] at p1
    have p2 := parse4Hex_hex4 lo (by omega) tail
    rw [hform]
    simp [parseStrBody, p1, p2, hs1, hs2, hc]

theorem parseStrBody_encChars (cs : List Char) : ∀ (fuel : Nat) (rest : List Char),
    cs.length < fuel → parseStrBody fuel (encChars cs ++ ('"' :: rest)) = some (cs, rest) := by
  induction cs with
  | nil =>
    intro fuel rest hfuel
    match fuel, hfuel with
    | fuel + 1, _ => simp [encChars, parseStrBody]
  | cons c cs ih =>
    intro fuel rest hfuel
    match fuel, hfuel with
    | fuel + 1, hfuel =>
      have : encChars (c :: cs) ++ ('"' :: rest) = escChar c ++ (encChars cs ++ ('"' :: rest)) := by
        simp [encChars]
      rw [this, parseStrBody_escChar, ih fuel rest (by simpa using hfuel)]

theorem one_le_length_escChar (c : Char) : 1 ≤ (escChar c).length := by
  unfold escChar
  repeat' split
  all_goals simp

theorem length_le_length_encChars (cs : List Char) : cs.length ≤ (encChars cs).length := by
  induction cs with
  | nil => simp [encChars]
  | cons c cs ih =>
    have := one_le_length_escChar c
    simp [encChars]
    omega

theorem parseJString_encString (s : String) (rest : List Char) :
    parseJString (encString s ++ rest) = some (s, rest) := by
  have hshape : encString s ++ rest = '"' :: (encChars s.data ++ ('"' :: rest)) := by
    simp [encString]
  rw [hshape]
  have hlen : s.data.length < (encChars s.data ++ ('"' :: rest)).length + 1 := by
    have h1 := length_le_length_encChars s.data
    rw [List.length_append, List.length_cons]
    omega
  rw [parseJString]
  rw [parseStrBody_encChars s.data _ rest hlen]

theorem encCommaSep_cons_ex (a : List Char) (as : List (List Char)) :
    ∃ t, encCommaSep (a :: as) = a ++ t := by
  cases as with
  | nil => exact ⟨[], by simp [encCommaSep]⟩
  | cons b bs => exact ⟨_, rfl⟩

theorem skipWs_not_ws (c : Char) (l : List Char)
    (h : (c = ' ' || c = '\t' || c = '\n' || c = '\r') = false) :
    skipWs (c :: l) = c :: l := by
  simp [skipWs, h]

theorem skipWs_space (l : List Char) : skipWs (' ' :: l) = skipWs l := by
  simp [skipWs]

theorem parseElems_enc (l : List String) : ∀ (fuel : Nat) (rest : List Char),
    l ≠ [] → l.length ≤ fuel →
    parseElems fuel (encCommaSep (l.map encString) ++ (']' :: rest)) = some (l, rest) := by
  induction l with
  | nil => intro _ _ hne _; exact absurd rfl hne
  | cons x xs ih =>
    intro fuel rest _ hfuel
    match fuel, hfuel with
    | fuel + 1, hfuel =>
      cases xs with
      | nil =>
        have hsh : encCommaSep ([x].map encString) = encString x := by simp [encCommaSep]
        rw [hsh, parseElems, parseJString_encString x (']' :: rest)]
        simp [skipWs_not_ws]
      | cons y ys =>
        obtain ⟨t, ht⟩ := encCommaSep_cons_ex (encString y) (ys.map encString)
        obtain ⟨u, hu⟩ : ∃ u, encCommaSep ((y :: ys).map encString) ++ (']' :: rest) =
            '"' :: u :=
          ⟨(encChars y.data ++ ['"'] ++ t) ++ (']' :: rest), by
            rw [List.map_cons, ht]
            simp [encString]⟩
        have hsh : encCommaSep ((x :: y :: ys).map encString) ++ (']' :: rest) =
            encString x ++ (',' :: ' ' ::
              (encCommaSep ((y :: ys).map encString) ++ (']' :: rest))) := by
          simp [encCommaSep]
        have hskip : skipWs (encCommaSep ((y :: ys).map encString) ++ (']' :: rest)) =
            encCommaSep ((y :: ys).map encString) ++ (']' :: rest) := by
          rw [hu]
          exact skipWs_not_ws '"' u rfl
        have ihx := ih fuel rest (by simp) (by simpa using hfuel)
        simp only [List.map_cons] at hskip ihx
        rw [hsh, parseElems, parseJString_encString x]
        simp [skipWs_not_ws, skipWs_space, hskip, ihx]

theorem length_le_encCommaSep (l : List String) :
    l.length ≤ (encCommaSep (l.map encString)).length + 1 := by
  induction l with
  | nil => simp
  | cons x xs ih =>
    cases xs with
    | nil => simp [encCommaSep, encString]
    | cons y ys =>
      have hx : 1 ≤ (encString x).length := by simp [encString]
      calc (x :: y :: ys).length = (y :: ys).length + 1 := by simp
        _ ≤ (encCommaSep ((y :: ys).map encString)).length + 2 := by omega
        _ ≤ (encCommaSep ((x :: y :: ys).map encString)).length + 1 := by
              simp [encCommaSep]
              omega

theorem parseStrList_enc (l : List String) (fuel : Nat) (rest : List Char)
    (hfuel : l.length ≤ fuel) :
    parseStrList fuel (('[' :: (encCommaSep (l.map encString) ++ [']'])) ++ rest) =
      some (l, rest) := by
  have hsh : ('[' :: (encCommaSep (l.map encString) ++ [']'])) ++ rest =
      '[' :: (encCommaSep (l.map encString) ++ (']' :: rest)) := by simp
  rw [hsh, parseStrList, skipWs_not_ws '[' _ rfl]
  cases l with
  | nil => simp [encCommaSep, skipWs_not_ws]
  | cons x xs =>
    obtain ⟨t, ht⟩ := encCommaSep_cons_ex (encString x) (xs.map encString)
    obtain ⟨u, hu⟩ : ∃ u, encCommaSep ((x :: xs).map encString) ++ (']' :: rest) =
        '"' :: u :=
      ⟨(encChars x.data ++ ['"'] ++ t) ++ (']' :: rest), by
        rw [List.map_cons, ht]
        simp [encString]⟩
    have hpe' : parseElems fuel ('"' :: u) = some (x :: xs, rest) := by
      rw [← hu]
      exact parseElems_enc (x :: xs) fuel rest (by simp) hfuel
    have hskipq : skipWs ('"' :: u) = '"' :: u := skipWs_not_ws '"' u rfl
    rw [hu]
    simp [hskipq, hpe']

theorem json_loads_dumps_strlist (l : List String) :
    json_loads_strlist (json_dumps_strlist l) = some l := by
  have hfuel : l.length ≤ (json_dumps_strlist l).data.length := by
    have h1 := length_le_encCommaSep l
    simp [json_dumps_strlist]
    omega
  rw [json_loads_strlist]
  rw [show (json_dumps_strlist l).data =
    ('[' :: (encCommaSep (l.map encString) ++ [']'])) ++ [] from by
      simp [json_dumps_strlist]]
  rw [parseStrList_enc l _ [] (by
    have h1 := length_le_encCommaSep l
    simp
    omega)]
  simp [skipWs]

theorem parseEntries_enc (m : List (String × String)) : ∀ (fuel : Nat) (rest : List Char),
    m ≠ [] → m.length ≤ fuel →
    parseEntries fuel
      (encCommaSep (m.map (fun kv => encString kv.1 ++ ':' :: ' ' :: encString kv.2)) ++
        ('\x7d' :: rest)) = some (m, rest) := by
  induction m with
  | nil => intro _ _ hne _; exact absurd rfl hne
  | cons x xs ih =>
    intro fuel rest _ hfuel
    match fuel, hfuel with
    | fuel + 1, hfuel =>
      obtain ⟨k, v⟩ := x
      cases xs with
      | nil =>
        have hsh : encCommaSep ([(k, v)].map
              (fun kv => encString kv.1 ++ ':' :: ' ' :: encString kv.2)) ++ ('\x7d' :: rest) =
            encString k ++ (':' :: ' ' :: (encString v ++ ('\x7d' :: rest))) := by
          simp [encCommaSep]
        rw [hsh, parseEntries, parseJString_encString k]
        have hskipv : skipWs (encString v ++ ('\x7d' :: rest)) =
            encString v ++ ('\x7d' :: rest) := by
          rw [show encString v ++ ('\x7d' :: rest) =
            '"' :: (encChars v.data ++ ['"'] ++ ('\x7d' :: rest)) from by simp [encString]]
          exact skipWs_not_ws '"' _ rfl
        simp [skipWs_not_ws, skipWs_space, hskipv, parseJString_encString v]
      | cons y ys =>
        have hsh : encCommaSep (((k, v) :: y :: ys).map
              (fun kv => encString kv.1 ++ ':' :: ' ' :: encString kv.2)) ++ ('\x7d' :: rest) =
            encString k ++ (':' :: ' ' :: (encString v ++ (',' :: ' ' ::
              (encCommaSep ((y :: ys).map
                (fun kv => encString kv.1 ++ ':' :: ' ' :: encString kv.2)) ++
                ('\x7d' :: rest))))) := by
          simp [encCommaSep]
        obtain ⟨t, ht⟩ := encCommaSep_cons_ex
          (encString y.1 ++ ':' :: ' ' :: encString y.2)
          (ys.map (fun kv => encString kv.1 ++ ':' :: ' ' :: encString kv.2))
        obtain ⟨u, hu⟩ : ∃ u, encCommaSep ((y :: ys).map
              (fun kv => encString kv.1 ++ ':' :: ' ' :: encString kv.2)) ++
              ('\x7d' :: rest) = '"' :: u :=
          ⟨(encChars y.1.data ++ ['"'] ++ (':' :: ' ' :: encString y.2 ++ t)) ++
              ('\x7d' :: rest), by
            rw [List.map_cons, ht]
            simp [encString]⟩
        have hskipE : skipWs (encCommaSep ((y :: ys).map
              (fun kv => encString kv.1 ++ ':' :: ' ' :: encString kv.2)) ++
              ('\x7d' :: rest)) =
            encCommaSep ((y :: ys).map
              (fun kv => encString kv.1 ++ ':' :: ' ' :: encString kv.2)) ++
              ('\x7d' :: rest) := by
          rw [hu]
          exact skipWs_not_ws '"' u rfl
        have hskipv : skipWs (encString v ++ (',' :: ' ' ::
              (encCommaSep ((y :: ys).map
                (fun kv => encString kv.1 ++ ':' :: ' ' :: encString kv.2)) ++
                ('\x7d' :: rest)))) =
            encString v ++ (',' :: ' ' ::
              (encCommaSep ((y :: ys).map
                (fun kv => encString kv.1 ++ ':' :: ' ' :: encString kv.2)) ++
                ('\x7d' :: rest))) := by
          rw [show encString v ++ (',' :: ' ' ::
              (encCommaSep ((y :: ys).map
                (fun kv => encString kv.1 ++ ':' :: ' ' :: encString kv.2)) ++
                ('\x7d' :: rest))) =
            '"' :: (encChars v.data ++ ['"'] ++ (',' :: ' ' ::
              (encCommaSep ((y :: ys).map
                (fun kv => encString kv.1 ++ ':' :: ' ' :: encString kv.2)) ++
                ('\x7d' :: rest)))) from by simp [encString]]
          exact skipWs_not_ws '"' _ rfl
        have ihx := ih fuel rest (by simp) (by simpa using hfuel)
        simp only [List.map_cons] at hskipE ihx hskipv
        rw [hsh, parseEntries, parseJString_encString k]
        simp [skipWs_not_ws, skipWs_space, hskipv, hskipE, ihx, parseJString_encString v]

theorem length_le_encCommaSep_entries (m : List (String × String)) :
    m.length ≤ (encCommaSep (m.map
      (fun kv => encString kv.1 ++ ':' :: ' ' :: encString kv.2))).length + 1 := by
  induction m with
  | nil => simp
  | cons x xs ih =>
    cases xs with
    | nil => simp [encCommaSep, encString]
    | cons y ys =>
      have hx : 1 ≤ (encString x.1).length := by simp [encString]
      calc (x :: y :: ys).length = (y :: ys).length + 1 := by simp
        _ ≤ (encCommaSep ((y :: ys).map
              (fun kv => encString kv.1 ++ ':' :: ' ' :: encString kv.2))).length + 2 := by
              omega
        _ ≤ (encCommaSep ((x :: y :: ys).map
              (fun kv => encString kv.1 ++ ':' :: ' ' :: encString kv.2))).length + 1 := by
              simp [encCommaSep]
              omega

theorem parseStrMap_enc (m : List (String × String)) (fuel : Nat) (rest : List Char)
    (hfuel : m.length ≤ fuel) :
    parseStrMap fuel (('\x7b' :: (encCommaSep (m.map
      (fun kv => encString kv.1 ++ ':' :: ' ' :: encString kv.2)) ++ ['\x7d'])) ++ rest) =
      some (m, rest) := by
  have hsh : ('\x7b' :: (encCommaSep (m.map
      (fun kv => encString kv.1 ++ ':' :: ' ' :: encString kv.2)) ++ ['\x7d'])) ++ rest =
      '\x7b' :: (encCommaSep (m.map
        (fun kv => encString kv.1 ++ ':' :: ' ' :: encString kv.2)) ++ ('\x7d' :: rest)) := by
    simp
  rw [hsh, parseStrMap, skipWs_not_ws '\x7b' _ rfl]
  cases m with
  | nil => simp [encCommaSep, skipWs_not_ws]
  | cons x xs =>
    obtain ⟨t, ht⟩ := encCommaSep_cons_ex
      (encString x.1 ++ ':' :: ' ' :: encString x.2)
      (xs.map (fun kv => encString kv.1 ++ ':' :: ' ' :: encString kv.2))
    obtain ⟨u, hu⟩ : ∃ u, encCommaSep ((x :: xs).map
        (fun kv => encString kv.1 ++ ':' :: ' ' :: encString kv.2)) ++ ('\x7d' :: rest) =
        '"' :: u :=
      ⟨(encChars x.1.data ++ ['"'] ++ (':' :: ' ' :: encString x.2 ++ t)) ++
          ('\x7d' :: rest), by
        rw [List.map_cons, ht]
        simp [encString]⟩
    have hpe' : parseEntries fuel ('"' :: u) = some (x :: xs, rest) := by
      rw [← hu]
      exact parseEntries_enc (x :: xs) fuel rest (by simp) hfuel
    have hskipq : skipWs ('"' :: u) = '"' :: u := skipWs_not_ws '"' u rfl
    rw [hu]
    simp [hskipq, hpe']

theorem json_loads_dumps_strmap (m : List (String × String)) :
    json_loads_strmap (json_dumps_strmap m) = some m := by
  rw [json_loads_strmap]
  rw [show (json_dumps_strmap m).data =
    ('\x7b' :: (encCommaSep (m.map
      (fun kv => encString kv.1 ++ ':' :: ' ' :: encString kv.2)) ++ ['\x7d'])) ++ [] from by
      simp [json_dumps_strmap]]
  rw [parseStrMap_enc m _ [] (by
    have h1 := length_le_encCommaSep_entries m
    simp
    omega)]
  simp [skipWs]

theorem load_memory_row_save (s : Session) :
    load_memory_row (save_memory_row s) = some s := by
  have hne : json_dumps_strmap s.facts ≠ "" := by
    intro h
    have h2 := congrArg String.data h
    simp [json_dumps_strmap] at h2
  simp [load_memory_row, save_memory_row, json_loads_dumps_strlist,
    json_loads_dumps_strmap, hne]

theorem load_lookup_aux (uid : Nat) (r : Row) (sv : Session)
    (hr : load_memory_row r = some sv) :
    ∀ (db : List (Nat × Row)), (∀ p ∈ db, (load_memory_row p.2).isSome) →
    (load_memory (db.filter (fun p => p.1 != uid) ++ [(uid, r)])).bind
      (fun cache => cache.lookup uid) = some sv := by
  intro db
  induction db with
  | nil =>
    intro _
    simp [load_memory, hr, List.lookup]
  | cons p db ih =>
    intro hdb
    have htail : ∀ q ∈ db, (load_memory_row q.2).isSome := fun q hq => hdb q (by simp [hq])
    have ih2 := ih htail
    by_cases hp : p.1 != uid
    · obtain ⟨sp, hsp⟩ : ∃ sp, load_memory_row p.2 = some sp :=
        Option.isSome_iff_exists.mp (hdb p (by simp))
      have hne : (uid == p.1) = false := by
        simp only [bne_iff_ne] at hp
        simp [Ne.symm hp]
      rcases hL : load_memory (db.filter (fun q => q.1 != uid) ++ [(uid, r)]) with _ | cache
      · rw [hL] at ih2
        simp at ih2
      · rw [hL] at ih2
        simp only [Option.some_bind] at ih2
        rw [List.filter_cons]
        simp only [hp, if_true]
        simp [load_memory, hsp, hL, List.lookup, hne, ih2]
    · have hpe : (p.1 != uid) = false := by simpa using hp
      rw [List.filter_cons]
      simp only [hpe, Bool.false_eq_true, if_false]
      exact ih2

/-- C7 (confirmed): saving any session and rebuilding the cache from
scratch with `load_memory` yields an identical session — same history order
and contents, same facts, same pending thought — provided every other row
of the table is itself decodable (as every row written by `save_memory`
is). -/
theorem C7_round_trip (uid : Nat) (s : Session) (db : List (Nat × Row))
    (hdb : ∀ p ∈ db, (load_memory_row p.2).isSome) :
    (load_memory (save_memory uid s db)).bind
      (fun cache => cache.lookup uid) = some s := by
  rw [save_memory, dbReplace]
  exact load_lookup_aux uid (save_memory_row s) s (load_memory_row_save s) db hdb

/-- Witness for C7 at a concrete session with nontrivial history, facts and
pending thought, on the empty table. -/
theorem C7_witness :
    (load_memory (save_memory 7
        ⟨["Hi", "Bot: yo"], [("color", "blue")], some "2 +"⟩ [])).bind
      (fun cache => cache.lookup 7) =
      some ⟨["Hi", "Bot: yo"], [("color", "blue")], some "2 +"⟩ :=
  C7_round_trip 7 ⟨["Hi", "Bot: yo"], [("color", "blue")], some "2 +"⟩ [] (by simp)

end Bot
